import Mathlib

/-
Verification of the resumable batch-scoring pipeline of the
Awesome-Little-Red-Dots repository.

Shallow embedding of:
  AIBot/scripts/gemini_client.py   (GeminiRankingClient._parse_response, .rank_paper)
  AIBot/scripts/kick_off_ranker.py (rank_papers, get_category_score, save_report)
  AIBot/paper_ranker.py            (rank_papers, save_report -- the legacy variant)

Python strings are modelled as `List Char`; Python dicts as insertion-ordered
association lists; machine floats as exact rationals (`Rat`); fallible code as
`Except`/`Option`.  Every definition is executable.
-/

namespace LRD

/-! ### Python string primitives

Models of the `str` operations the source uses: `find` / `rfind` (returning -1
when absent), slicing with a possibly negative end index, `strip`, and the
`in` substring test. -/

def isPyWs (c : Char) : Bool :=
  c = ' ' || c = '\n' || c = '\t' || c = '\r' || c = '\x0b' || c = '\x0c'

/-- Python `t.find(sub, start)`: least index `i ≥ start` where `sub` occurs, else -1. -/
def pyFindFrom (t sub : List Char) (start : Nat) : Int :=
  match (List.range (t.length + 1)).find?
      (fun i => decide (start ≤ i) && sub.isPrefixOf (t.drop i)) with
  | some i => (i : Int)
  | none => -1

/-- Python `t.find(sub)`. -/
def pyFind (t sub : List Char) : Int := pyFindFrom t sub 0

/-- Python `t.rfind(sub)`: greatest index where `sub` occurs, else -1. -/
def pyRfind (t sub : List Char) : Int :=
  match ((List.range (t.length + 1)).filter
      (fun i => sub.isPrefixOf (t.drop i))).getLast? with
  | some i => (i : Int)
  | none => -1

/-- Clamp a Python slice bound (negative indices count from the end). -/
def pyIdx (len : Nat) (i : Int) : Nat :=
  if i < 0 then (max 0 ((len : Int) + i)).toNat else min i.toNat len

/-- Python slice `t[a:b]` for integer bounds `a`, `b`. -/
def pySlice (t : List Char) (a b : Int) : List Char :=
  (t.take (pyIdx t.length b)).drop (pyIdx t.length a)

/-- Python `t.strip()`. -/
def pyStrip (t : List Char) : List Char :=
  ((t.dropWhile isPyWs).reverse.dropWhile isPyWs).reverse

/-- Python `sub in t` (substring containment). -/
def pyContains (t sub : List Char) : Bool := pyFind t sub != -1

/-! ### JSON values and a model of `json.loads`

`json.loads` is an external library; the chain logic below is parameterized
over an arbitrary parser `loads : List Char → Option Json`.  The concrete
instance `jsonLoads` is used for closed evaluations; it covers the JSON
fragment those evaluations need (objects, arrays, strings without escape
sequences, integer numbers, `true`/`false`/`null`), requiring - like
`json.loads` - that the whole input is a single document. -/

inductive Json where
  | jnull : Json
  | jbool : Bool → Json
  | jnum : Int → Json
  | jstr : String → Json
  | jarr : List Json → Json
  | jobj : List (String × Json) → Json

def skipWs (s : List Char) : List Char := s.dropWhile isPyWs

def digitsVal (l : List Char) : Nat :=
  l.foldl (fun a c => a * 10 + (c.toNat - 48)) 0

def takeDigits (s : List Char) : List Char × List Char :=
  (s.takeWhile Char.isDigit, s.dropWhile Char.isDigit)

/-- Characters of a string literal after the opening quote (no escapes). -/
def parseStrChars : List Char → Option (List Char × List Char)
  | [] => none
  | c :: rest =>
    if c = '\"' then some ([], rest)
    else if c = '\\' then none
    else match parseStrChars rest with
      | some (cs, r) => some (c :: cs, r)
      | none => none

/-- Parser modes: a single value, object members, array elements. -/
inductive PK where
  | pv : PK
  | pm : PK
  | pe : PK

inductive POut where
  | ov : Json → POut
  | om : List (String × Json) → POut
  | oe : List Json → POut

def parseCore : Nat → PK → List Char → Option (POut × List Char)
  | 0, _, _ => none
  | fuel + 1, PK.pv, s =>
    match skipWs s with
    | '\x7b' :: rest =>
      (match skipWs rest with
       | '\x7d' :: r => some (POut.ov (Json.jobj []), r)
       | r =>
         match parseCore fuel PK.pm r with
         | some (POut.om l, r2) => some (POut.ov (Json.jobj l), r2)
         | _ => none)
    | '[' :: rest =>
      (match skipWs rest with
       | ']' :: r => some (POut.ov (Json.jarr []), r)
       | r =>
         match parseCore fuel PK.pe r with
         | some (POut.oe l, r2) => some (POut.ov (Json.jarr l), r2)
         | _ => none)
    | '\"' :: rest =>
      (match parseStrChars rest with
       | some (cs, r) => some (POut.ov (Json.jstr (String.mk cs)), r)
       | none => none)
    | '-' :: rest =>
      (match takeDigits rest with
       | ([], _) => none
       | (ds, r) => some (POut.ov (Json.jnum (-(digitsVal ds : Int))), r))
    | 't' :: 'r' :: 'u' :: 'e' :: r => some (POut.ov (Json.jbool true), r)
    | 'f' :: 'a' :: 'l' :: 's' :: 'e' :: r => some (POut.ov (Json.jbool false), r)
    | 'n' :: 'u' :: 'l' :: 'l' :: r => some (POut.ov Json.jnull, r)
    | s1 =>
      (match takeDigits s1 with
       | ([], _) => none
       | (ds, r) => some (POut.ov (Json.jnum (digitsVal ds : Int)), r))
  | fuel + 1, PK.pm, s =>
    match skipWs s with
    | '\"' :: rest =>
      (match parseStrChars rest with
       | none => none
       | some (key, r) =>
         match skipWs r with
         | ':' :: r2 =>
           (match parseCore fuel PK.pv r2 with
            | some (POut.ov v, r3) =>
              (match skipWs r3 with
               | ',' :: r4 =>
                 (match parseCore fuel PK.pm r4 with
                  | some (POut.om l, r5) => some (POut.om ((String.mk key, v) :: l), r5)
                  | _ => none)
               | '\x7d' :: r4 => some (POut.om [(String.mk key, v)], r4)
               | _ => none)
            | _ => none)
         | _ => none)
    | _ => none
  | fuel + 1, PK.pe, s =>
    match parseCore fuel PK.pv s with
    | some (POut.ov v, r) =>
      (match skipWs r with
       | ',' :: r2 =>
         (match parseCore fuel PK.pe r2 with
          | some (POut.oe l, r3) => some (POut.oe (v :: l), r3)
          | _ => none)
       | ']' :: r2 => some (POut.oe [v], r2)
       | _ => none)
    | _ => none

/-- Concrete model of `json.loads` on the fragment described above. -/
def jsonLoads (s : List Char) : Option Json :=
  match parseCore (2 * s.length + 2) PK.pv s with
  | some (POut.ov j, rest) => if skipWs rest = [] then some j else none
  | _ => none

/-! ### GeminiRankingClient._parse_response (gemini_client.py, lines 143-185)

Direct translation of the nested try/if-elif-else.  The three marker strings
are `"```json"`, `"```"`, and the braces. -/

def fenceJson : List Char := "```json".toList

def fence3 : List Char := "```".toList

def openBrace : List Char := "\x7b".toList

def closeBrace : List Char := "\x7d".toList

inductive ParseErr where
  | jsonDecodeError : ParseErr
  | rankingError : ParseErr
deriving DecidableEq

/-- Model of `GeminiRankingClient._parse_response`, parameterized over `json.loads`.
`.error jsonDecodeError` models a `json.JSONDecodeError` escaping the method,
`.error rankingError` the explicit `raise GeminiRankingError`. -/
def parse_response (loads : List Char → Option Json) (t : List Char) :
    Except ParseErr Json :=
  match loads t with
  | some j => Except.ok j
  | none =>
    if pyFind t fenceJson ≠ -1 then
      let start : Int := pyFind t fenceJson + 7
      let stop : Int := pyFindFrom t fence3 start.toNat
      let json_str := pyStrip (pySlice t start stop)
      match loads json_str with
      | some j => Except.ok j
      | none => Except.error ParseErr.jsonDecodeError
    else if pyFind t fence3 ≠ -1 then
      let start : Int := pyFind t fence3 + 3
      let stop : Int := pyFindFrom t fence3 start.toNat
      let json_str := pyStrip (pySlice t start stop)
      match loads json_str with
      | some j => Except.ok j
      | none => Except.error ParseErr.jsonDecodeError
    else
      let start : Int := pyFind t openBrace
      let stop : Int := pyRfind t closeBrace + 1
      if start ≠ -1 ∧ stop > start then
        match loads (pySlice t start stop) with
        | some j => Except.ok j
        | none => Except.error ParseErr.jsonDecodeError
      else Except.error ParseErr.rankingError

/-! Extraction strategies, named as in the spec (section 4.1): (b) the fenced
block explicitly labeled `json`, (c) any fenced block, (d) the widest substring
from the first opening to the last closing brace.  The extraction arithmetic is
the same as in the code. -/

def extractLabeledFence (t : List Char) : Option (List Char) :=
  if pyFind t fenceJson ≠ -1 then
    some (pyStrip (pySlice t (pyFind t fenceJson + 7)
      (pyFindFrom t fence3 (pyFind t fenceJson + 7).toNat)))
  else none

def extractAnyFence (t : List Char) : Option (List Char) :=
  if pyFind t fence3 ≠ -1 then
    some (pyStrip (pySlice t (pyFind t fence3 + 3)
      (pyFindFrom t fence3 (pyFind t fence3 + 3).toNat)))
  else none

def extractBraces (t : List Char) : Option (List Char) :=
  if pyFind t openBrace ≠ -1 ∧ pyRfind t closeBrace + 1 > pyFind t openBrace then
    some (pySlice t (pyFind t openBrace) (pyRfind t closeBrace + 1))
  else none

/-- The parse chain exactly as the claim states it: strategies (a) direct,
(b) labeled fence, (c) any fence, (d) brace-bounded substring are attempted in
order, the chain stopping at the first success; an error is reported only when
all four fail.  (Written from the spec for refinement comparison with
`parse_response`.) -/
def specChainParse (loads : List Char → Option Json) (t : List Char) :
    Except ParseErr Json :=
  match loads t with
  | some j => Except.ok j
  | none =>
    match extractLabeledFence t >>= loads with
    | some j => Except.ok j
    | none =>
      match extractAnyFence t >>= loads with
      | some j => Except.ok j
      | none =>
        match extractBraces t >>= loads with
        | some j => Except.ok j
        | none => Except.error ParseErr.rankingError

/-- What `_parse_response` actually does: after a failed direct parse, exactly
one fallback is selected by inspecting the text for markers (the labeled fence
if present, else any fence, else the brace-bounded substring); a parse failure
of the selected fallback propagates as a decode error without trying later
strategies, and the explicit ranking error is raised only when no fence marker
and no brace-bounded substring exist. -/
def chooseFallback (t : List Char) : Option (List Char) :=
  match extractLabeledFence t with
  | some s => some s
  | none =>
    match extractAnyFence t with
    | some s => some s
    | none => extractBraces t

def amendedParse (loads : List Char → Option Json) (t : List Char) :
    Except ParseErr Json :=
  match loads t with
  | some j => Except.ok j
  | none =>
    match chooseFallback t with
    | some s =>
      (match loads s with
       | some j => Except.ok j
       | none => Except.error ParseErr.jsonDecodeError)
    | none => Except.error ParseErr.rankingError

/-! ### GeminiRankingClient.rank_paper (gemini_client.py, lines 187-247) -/

/-- Membership test of the key `final_score` in an arbitrary parsed JSON value: key lookup
for dicts, element equality for lists, substring test for strings; `none`
models the `TypeError` Python raises on the other types. -/
def containsFinalScore : Json → Option Bool
  | Json.jobj l => some (l.any (fun e => e.1 == "final_score"))
  | Json.jarr l =>
    some (l.any (fun e =>
      match e with
      | Json.jstr s => s == "final_score"
      | _ => false))
  | Json.jstr s => some (pyContains s.toList ("final_score".toList))
  | _ => none

/-- One backend attempt, as seen inside the retry loop: either
`generate_content` raises, or it returns a response text. -/
inductive AttemptOutcome where
  | apiError : AttemptOutcome
  | response : List Char → AttemptOutcome

inductive AttemptErr where
  | apiError : AttemptErr
  | decodeError : AttemptErr
  | parseFailure : AttemptErr
  | missingScore : AttemptErr
  | typeError : AttemptErr
deriving DecidableEq

/-- The body of one iteration of the retry loop: call the API, parse the
response, check for `final_score`.  Every `.error` case is caught by one of
the two `except` clauses and treated identically (retry or final raise). -/
def processAttempt (loads : List Char → Option Json) :
    AttemptOutcome → Except AttemptErr Json
  | AttemptOutcome.apiError => Except.error AttemptErr.apiError
  | AttemptOutcome.response t =>
    match parse_response loads t with
    | Except.error ParseErr.jsonDecodeError => Except.error AttemptErr.decodeError
    | Except.error ParseErr.rankingError => Except.error AttemptErr.parseFailure
    | Except.ok j =>
      match containsFinalScore j with
      | none => Except.error AttemptErr.typeError
      | some false => Except.error AttemptErr.missingScore
      | some true => Except.ok j

/-- Observable outcome of `rank_paper`: the returned value or the final
`GeminiRankingError`, the number of `generate_content` invocations, and the
sequence of back-off sleeps (in seconds) between consecutive attempts. -/
structure RankRun where
  result : Except Unit Json
  invocations : Nat
  sleeps : List Nat

/-- The retry loop `for attempt in range(self.max_retries)`, by recursion on
`remaining = max_retries - attempt`: the code retries (after sleeping
`2 ** attempt`) while `attempt < max_retries - 1`, i.e. while `remaining > 1`,
and raises on the last attempt.  `remaining = 0` is the unreachable
fall-through `raise` after the loop. -/
def rankGo (loads : List Char → Option Json) (attempts : Nat → AttemptOutcome)
    (attempt : Nat) : Nat → RankRun
  | 0 => ⟨Except.error (), 0, []⟩
  | remaining + 1 =>
    match processAttempt loads (attempts attempt) with
    | Except.ok j => ⟨Except.ok j, 1, []⟩
    | Except.error _ =>
      if remaining = 0 then ⟨Except.error (), 1, []⟩
      else
        let rest := rankGo loads attempts (attempt + 1) remaining
        ⟨rest.result, rest.invocations + 1, 2 ^ attempt :: rest.sleeps⟩

/-- Model of `GeminiRankingClient.rank_paper`, with the per-attempt backend behaviour
supplied by `attempts`. -/
def rank_paper (loads : List Char → Option Json) (maxRetries : Nat)
    (attempts : Nat → AttemptOutcome) : RankRun :=
  rankGo loads attempts 0 maxRetries

/-! ### Records and results (the pipeline data model)

Scores are exact rationals standing in for Python floats (every score the
claims mention is exactly representable). -/

abbrev Score := Rat

/-- A value of `papers[key]` as built by `parse_kick_off_bibtex` /
`parse_bibtex` (the RecordSource). -/
structure Paper where
  bibtex_key : String
  title : String
  abstract : String
  existing_tags : String
  lrdIndex : Int
  year : String
  authors : String
deriving DecidableEq

/-- The typed projection of the backend response dict that the pipeline reads
via `ranking.get(...)` (defaults already applied).  `category_scores` keeps
the per-category `score` field; the `reasoning` text is never read by the
pipeline. -/
structure Ranking where
  final_score : Score
  justification : String
  key_factors : List String
  category_scores : List (String × Score)
  notebooklm_recommendation : String
deriving DecidableEq

/-- One element of the report's `papers` array: `result = ⟨**paper_info,
relevance_score, ...⟩`. -/
structure RankedPaper where
  info : Paper
  relevance_score : Score
  justification : String
  key_factors : List String
  category_scores : List (String × Score)
  notebooklm_recommendation : String
deriving DecidableEq

def RankedPaper.bibtex_key (p : RankedPaper) : String := p.info.bibtex_key

def mkRanked (p : Paper) (r : Ranking) : RankedPaper :=
  ⟨p, r.final_score, r.justification, r.key_factors, r.category_scores,
    r.notebooklm_recommendation⟩

/-- The identities (`bibtex_key` values) of a list of records. -/
def ids (rs : List RankedPaper) : List String := rs.map RankedPaper.bibtex_key

/-! ### Python `sorted`

Python's `sorted` is a stable sort; a stable sort's output is uniquely
determined, so it is modelled by a structural stable insertion sort
(each element is inserted before the first existing element it compares
`le` to, hence before later-input elements with an equal key). -/

def insertL {α : Type} (le : α → α → Bool) (a : α) : List α → List α
  | [] => [a]
  | b :: l => if le a b then a :: b :: l else b :: insertL le a l

def pySorted {α : Type} (le : α → α → Bool) : List α → List α
  | [] => []
  | x :: xs => insertL le x (pySorted le xs)

def ratLe (a b : Score) : Bool := decide (a ≤ b)

/-! ### Statistics (kick_off_ranker.py lines 243-250 / 344-351,
paper_ranker.py lines 167-173 / 232-238) -/

def scoresOf (rs : List RankedPaper) : List Score :=
  rs.map RankedPaper.relevance_score

/-- The ascending sort `sorted(r["relevance_score"] for r in results)`. -/
def sortedScores (rs : List RankedPaper) : List Score :=
  pySorted ratLe (scoresOf rs)

/-- The running average `sum(...) / len(results)`. -/
def average_score (rs : List RankedPaper) : Score :=
  (scoresOf rs).sum / (rs.length : Score)

/-- The median `sorted(r["relevance_score"] for r in results)[len(results) // 2]`. -/
def median_score (rs : List RankedPaper) : Score :=
  (sortedScores rs).getD (rs.length / 2) 0

/-- In-loop statistics of kick_off_ranker (computed only when `results` is
non-empty). -/
structure StatsK where
  average_score : Score
  median_score : Score
  critical_count : Nat
  high_value_count : Nat
  moderate_value_count : Nat
  low_priority_count : Nat
deriving DecidableEq

def statsK (rs : List RankedPaper) : StatsK :=
  ⟨average_score rs, median_score rs,
    rs.countP (fun r => decide (8 ≤ r.relevance_score)),
    rs.countP (fun r => decide (6 ≤ r.relevance_score ∧ r.relevance_score < 8)),
    rs.countP (fun r => decide (4 ≤ r.relevance_score ∧ r.relevance_score < 6)),
    rs.countP (fun r => decide (r.relevance_score < 4))⟩

/-- In-loop statistics of paper_ranker (different tier boundaries). -/
structure StatsL where
  average_score : Score
  median_score : Score
  high_relevance_count : Nat
  moderate_relevance_count : Nat
  low_relevance_count : Nat
deriving DecidableEq

def statsL (rs : List RankedPaper) : StatsL :=
  ⟨average_score rs, median_score rs,
    rs.countP (fun r => decide (7 ≤ r.relevance_score)),
    rs.countP (fun r => decide (4 ≤ r.relevance_score ∧ r.relevance_score < 7)),
    rs.countP (fun r => decide (r.relevance_score < 4))⟩

/-- Guarded variants used by the final `save_report` (the
`... if results else 0` forms). -/
def finalStatsK (rs : List RankedPaper) : StatsK :=
  { statsK rs with
    average_score := if rs.isEmpty then 0 else average_score rs
    median_score := if rs.isEmpty then 0 else median_score rs }

def finalStatsL (rs : List RankedPaper) : StatsL :=
  { statsL rs with
    average_score := if rs.isEmpty then 0 else average_score rs
    median_score := if rs.isEmpty then 0 else median_score rs }

/-! ### The report document and the pipeline loop

The loop report always holds `report["papers"] = results` via aliasing of the
same list object and reassigns `successfully_scored = len(results)` on every
success, so at every `json.dump` the serialized fields are exactly those
recomputed here. -/

inductive Status where
  | in_progress : Status
  | completed : Status
deriving DecidableEq

/-- The incremental checkpoint document written inside `rank_papers`
(parametric in the statistics shape, which differs between the two scripts).
`statistics = none` models the dict before the key is first set. -/
structure Report (σ : Type) where
  total_papers : Nat
  successfully_scored : Nat
  failed : Nat
  papers : List RankedPaper
  status : Status
  statistics : Option σ
deriving DecidableEq

/-- In-memory state of one run of the loop, plus the trace of checkpoint
writes and the count of `client.rank_paper` calls. -/
structure LoopState (σ : Type) where
  results : List RankedPaper
  failed : Nat
  report : Report σ
  savedReports : List (Report σ)
  backendCalls : Nat

/-- One iteration of `for idx, (bibtex_key, paper_info) in enumerate(...)`:
on success append the merged record, update the report and save; on any
ranking error increment `failed`, save, and continue. -/
def stepPaper {σ : Type} (statsFn : List RankedPaper → σ)
    (oracle : Paper → Except Unit Ranking)
    (st : LoopState σ) (item : String × Paper) : LoopState σ :=
  match oracle item.2 with
  | Except.ok rk =>
    let results := st.results ++ [mkRanked item.2 rk]
    let report : Report σ :=
      { st.report with
        successfully_scored := results.length
        failed := st.failed
        papers := results
        statistics := some (statsFn results) }
    ⟨results, st.failed, report, st.savedReports ++ [report], st.backendCalls + 1⟩
  | Except.error _ =>
    let report : Report σ := { st.report with failed := st.failed + 1 }
    ⟨st.results, st.failed + 1, report, st.savedReports ++ [report],
      st.backendCalls + 1⟩

/-! ### Resume support (kick_off_ranker.py lines 163-195) -/

/-- The checkpoint document as loaded from disk: `papers` and `failed` may be
absent (`load_existing_report` may return a final report written by
`save_report`, which has neither key). -/
structure Checkpoint where
  papers : Option (List RankedPaper)
  failed : Option Nat
deriving DecidableEq

/-- The dict update `existing_papers[paper["bibtex_key"]] = paper`:
insertion-ordered, a duplicate key overwrites the value in place. -/
def upsert (m : List (String × RankedPaper)) (p : RankedPaper) :
    List (String × RankedPaper) :=
  if m.any (fun e => e.1 == p.bibtex_key) then
    m.map (fun e => if e.1 == p.bibtex_key then (e.1, p) else e)
  else m ++ [(p.bibtex_key, p)]

def buildExisting (ps : List RankedPaper) : List (String × RankedPaper) :=
  ps.foldl upsert []

/-- The load `load_existing_report(output_path) if resume else None`. -/
def loadedCheckpoint (existingReport : Option Checkpoint) (resume : Bool) :
    Option Checkpoint :=
  if resume then existingReport else none

/-- The `existing_papers` map (empty unless the loaded report has a `papers`
key). -/
def existingMap (c : Option Checkpoint) : List (String × RankedPaper) :=
  match c with
  | some ck =>
    (match ck.papers with
     | some ps => buildExisting ps
     | none => [])
  | none => []

/-- The filter loop: keep `(bibtex_key, paper_info)` unless
`bibtex_key in existing_papers and resume`. -/
def afterResumeFilter (papers : List (String × Paper))
    (em : List (String × RankedPaper)) (resume : Bool) : List (String × Paper) :=
  papers.filter (fun kp => !(em.any (fun e => e.1 == kp.1) && resume))

/-- The truncation `if limit: paper_items = paper_items[:limit]` (`0` and `None` are falsy). -/
def applyLimit (items : List (String × Paper)) (limit : Option Nat) :
    List (String × Paper) :=
  match limit with
  | some l => if l ≠ 0 then items.take l else items
  | none => items

def remainingItems (papers : List (String × Paper))
    (existingReport : Option Checkpoint) (limit : Option Nat) (resume : Bool) :
    List (String × Paper) :=
  applyLimit
    (afterResumeFilter papers (existingMap (loadedCheckpoint existingReport resume))
      resume)
    limit

/-- Observable outcome of one `rank_papers` run. -/
structure RunOutput (σ : Type) where
  returnedResults : List RankedPaper
  savedReports : List (Report σ)
  backendCalls : Nat
deriving DecidableEq

/-- Model of `rank_papers` of kick_off_ranker.py (lines 143-291): resume filtering,
limiting, the early `return list(existing_papers.values())` when nothing
remains (no file write happens on that path), the sequential loop with
incremental saves, and the final `status = "completed"` save. -/
def rank_papers (oracle : Paper → Except Unit Ranking)
    (papers : List (String × Paper)) (existingReport : Option Checkpoint)
    (limit : Option Nat) (resume : Bool) : RunOutput StatsK :=
  let loaded := loadedCheckpoint existingReport resume
  let existing := existingMap loaded
  match remainingItems papers existingReport limit resume with
  | [] => ⟨existing.map (fun e => e.2), [], 0⟩
  | item :: items =>
    let results := existing.map (fun e => e.2)
    let failed :=
      match loaded with
      | some ck => ck.failed.getD 0
      | none => 0
    let report0 : Report StatsK :=
      ⟨papers.length, results.length, failed, results, Status.in_progress, none⟩
    let finalState :=
      (item :: items).foldl (stepPaper statsK oracle)
        ⟨results, failed, report0, [], 0⟩
    let finalReport := { finalState.report with status := Status.completed }
    ⟨finalState.results, finalState.savedReports ++ [finalReport],
      finalState.backendCalls⟩

/-- Model of `rank_papers` of paper_ranker.py (lines 96-212): no resume support, the
limit applied to the full input, `total_papers = len(paper_items)`, and the
final completed save always performed. -/
def rank_papersLegacy (oracle : Paper → Except Unit Ranking)
    (papers : List (String × Paper)) (limit : Option Nat) : RunOutput StatsL :=
  let paper_items := applyLimit papers limit
  let report0 : Report StatsL :=
    ⟨paper_items.length, 0, 0, [], Status.in_progress, none⟩
  let finalState :=
    paper_items.foldl (stepPaper statsL oracle) ⟨[], 0, report0, [], 0⟩
  let finalReport := { finalState.report with status := Status.completed }
  ⟨finalState.results, finalState.savedReports ++ [finalReport],
    finalState.backendCalls⟩

/-! ### save_report (kick_off_ranker.py lines 294-336, paper_ranker.py
lines 215-239) -/

/-- Model of `get_category_score`: the nested dict lookups
`paper.get("category_scores", ...).get(name, ...).get("score", 0.0)`,
defaulting to 0.0 when the category is absent. -/
def get_category_score (p : RankedPaper) (category_name : String) : Score :=
  (((p.category_scores.find? (fun e => e.1 == category_name)).map
    (fun e => e.2)).getD 0)

/-- The key tuple of the kick_off sort (negated for descending order),
compared lexicographically as Python compares tuples. -/
def sortKey (p : RankedPaper) : List Score :=
  [-p.relevance_score,
   -(get_category_score p "direct_lrd_connection"),
   -(get_category_score p "citation_frequency"),
   -(get_category_score p "foundational_value"),
   -(get_category_score p "methodological_innovation"),
   -(get_category_score p "evolutionary_context")]

/-- Python tuple comparison, restricted to the equal-length tuples used here. -/
def pyListLe : List Score → List Score → Bool
  | [], _ => true
  | _ :: _, [] => false
  | a :: as1, b :: bs =>
    if a < b then true else if b < a then false else pyListLe as1 bs

def keyLe (a b : RankedPaper) : Bool := pyListLe (sortKey a) (sortKey b)

/-- The final report document written by `save_report` (neither script's
final report has `failed` or `status` keys). -/
structure FinalReport (σ : Type) where
  total_papers : Nat
  successfully_scored : Nat
  papers : List RankedPaper
  statistics : σ
deriving DecidableEq

/-- Model of `save_report` of kick_off_ranker.py: multi-key descending sort (primary
`relevance_score`, then the five category scores in rubric weight order). -/
def save_report (results : List RankedPaper) : FinalReport StatsK :=
  ⟨results.length, results.length, pySorted keyLe results, finalStatsK results⟩

def legacyLe (a b : RankedPaper) : Bool := ratLe b.relevance_score a.relevance_score

/-- Model of `save_report` of paper_ranker.py: `sorted(results, key=lambda x:
x["relevance_score"], reverse=True)` - a single-key descending stable sort. -/
def save_reportLegacy (results : List RankedPaper) : FinalReport StatsL :=
  ⟨results.length, results.length, pySorted legacyLe results, finalStatsL results⟩

/-! ### The checkpoint write path (kick_off_ranker.py lines 252-254 etc.)

Every save is `with open(output_path, "w") as f: json.dump(report, f, ...)`:
opening with mode "w" truncates the file at once, and the serializer then
streams the document into it in pieces.  `writeObservableStates` lists the
file contents a reader (or a crash) can observe during one such save over a
file previously holding `pre`; `atomicWriteStates` is what the claim requires
(all-or-nothing visibility). -/

def appendStates (cur : String) : List String → List String
  | [] => []
  | c :: cs => (cur ++ c) :: appendStates (cur ++ c) cs

def writeObservableStates (pre : String) (chunks : List String) : List String :=
  pre :: "" :: appendStates "" chunks

def atomicWriteStates (pre post : String) : List String := [pre, post]

/-! ### Helper lemmas: the stable sort -/

theorem insertL_perm {α : Type} (le : α → α → Bool) (a : α) (l : List α) :
    (insertL le a l).Perm (a :: l) := by
  induction l with
  | nil => exact List.Perm.refl _
  | cons b l ih =>
    unfold insertL
    split
    · exact List.Perm.refl _
    · exact (List.Perm.cons b ih).trans (List.Perm.swap a b l)

theorem pySorted_perm {α : Type} (le : α → α → Bool) (l : List α) :
    (pySorted le l).Perm l := by
  induction l with
  | nil => exact List.Perm.refl _
  | cons x xs ih => exact (insertL_perm le x (pySorted le xs)).trans (ih.cons x)

theorem pairwise_insertL {α : Type} {le : α → α → Bool}
    (htot : ∀ a b, le a b = true ∨ le b a = true)
    (htrans : ∀ a b c, le a b = true → le b c = true → le a c = true)
    (a : α) (l : List α) (hl : l.Pairwise (fun x y => le x y = true)) :
    (insertL le a l).Pairwise (fun x y => le x y = true) := by
  induction l with
  | nil => simp [insertL]
  | cons b l ih =>
    rcases List.pairwise_cons.mp hl with ⟨hb, hl2⟩
    unfold insertL
    split
    · rename_i hab
      refine List.pairwise_cons.mpr ⟨?_, hl⟩
      intro c hc
      rcases List.mem_cons.mp hc with rfl | hc
      · exact hab
      · exact htrans a b c hab (hb c hc)
    · rename_i hab
      refine List.pairwise_cons.mpr ⟨?_, ih hl2⟩
      intro c hc
      rcases List.mem_cons.mp ((insertL_perm le a l).mem_iff.mp hc) with rfl | hc
      · rcases htot c b with h | h
        · exact absurd h hab
        · exact h
      · exact hb c hc

theorem pairwise_pySorted {α : Type} {le : α → α → Bool}
    (htot : ∀ a b, le a b = true ∨ le b a = true)
    (htrans : ∀ a b c, le a b = true → le b c = true → le a c = true)
    (l : List α) : (pySorted le l).Pairwise (fun x y => le x y = true) := by
  induction l with
  | nil => simp [pySorted]
  | cons x xs ih => exact pairwise_insertL htot htrans x (pySorted le xs) ih

theorem pyListLe_total (a b : List Score) :
    pyListLe a b = true ∨ pyListLe b a = true := by
  induction a generalizing b with
  | nil => left; rfl
  | cons x xs ih =>
    cases b with
    | nil => right; rfl
    | cons y ys =>
      unfold pyListLe
      rcases lt_trichotomy x y with h | h | h
      · left; simp [h]
      · subst h
        simp only [lt_irrefl, if_false]
        exact ih ys
      · right; simp [h]

theorem pyListLe_trans (a b c : List Score) (h1 : pyListLe a b = true)
    (h2 : pyListLe b c = true) : pyListLe a c = true := by
  induction a generalizing b c with
  | nil => rfl
  | cons x xs ih =>
    cases b with
    | nil => simp [pyListLe] at h1
    | cons y ys =>
      cases c with
      | nil => simp [pyListLe] at h2
      | cons z zs =>
        unfold pyListLe at h1 h2 ⊢
        rcases lt_trichotomy x y with hxy | hxy | hxy
        · rcases lt_trichotomy y z with hyz | hyz | hyz
          · rw [if_pos (hxy.trans hyz)]
          · subst hyz; rw [if_pos hxy]
          · rw [if_neg (lt_asymm hyz), if_pos hyz] at h2
            exact absurd h2 (by simp)
        · subst hxy
          rcases lt_trichotomy x z with hyz | hyz | hyz
          · rw [if_pos hyz]
          · subst hyz
            rw [if_neg (lt_irrefl x), if_neg (lt_irrefl x)] at h1 h2 ⊢
            exact ih ys zs h1 h2
          · rw [if_neg (lt_asymm hyz), if_pos hyz] at h2
            exact absurd h2 (by simp)
        · rw [if_neg (lt_asymm hxy), if_pos hxy] at h1
          exact absurd h1 (by simp)

theorem keyLe_total (a b : RankedPaper) : keyLe a b = true ∨ keyLe b a = true :=
  pyListLe_total (sortKey a) (sortKey b)

theorem keyLe_trans (a b c : RankedPaper) (h1 : keyLe a b = true)
    (h2 : keyLe b c = true) : keyLe a c = true :=
  pyListLe_trans (sortKey a) (sortKey b) (sortKey c) h1 h2

theorem legacyLe_total (a b : RankedPaper) :
    legacyLe a b = true ∨ legacyLe b a = true := by
  unfold legacyLe ratLe
  rcases le_total b.relevance_score a.relevance_score with h | h
  · left; simpa using h
  · right; simpa using h

theorem legacyLe_trans (a b c : RankedPaper) (h1 : legacyLe a b = true)
    (h2 : legacyLe b c = true) : legacyLe a c = true := by
  unfold legacyLe ratLe at h1 h2 ⊢
  simp only [decide_eq_true_eq] at h1 h2 ⊢
  exact h2.trans h1

/-! ### Helper lemmas: the pipeline loop -/

theorem stepPaper_backendCalls {σ : Type} (statsFn : List RankedPaper → σ)
    (oracle : Paper → Except Unit Ranking) (st : LoopState σ)
    (item : String × Paper) :
    (stepPaper statsFn oracle st item).backendCalls = st.backendCalls + 1 := by
  unfold stepPaper
  cases oracle item.2 <;> rfl

theorem foldl_backendCalls {σ : Type} (statsFn : List RankedPaper → σ)
    (oracle : Paper → Except Unit Ranking) (items : List (String × Paper))
    (st : LoopState σ) :
    (items.foldl (stepPaper statsFn oracle) st).backendCalls =
      st.backendCalls + items.length := by
  induction items generalizing st with
  | nil => rfl
  | cons it items ih =>
    rw [List.foldl_cons, ih, stepPaper_backendCalls]
    simp only [List.length_cons]
    omega

theorem stepPaper_total {σ : Type} (statsFn : List RankedPaper → σ)
    (oracle : Paper → Except Unit Ranking) (st : LoopState σ)
    (item : String × Paper) :
    (stepPaper statsFn oracle st item).report.total_papers =
      st.report.total_papers ∧
    (stepPaper statsFn oracle st item).savedReports =
      st.savedReports ++ [(stepPaper statsFn oracle st item).report] := by
  unfold stepPaper
  cases oracle item.2 <;> exact ⟨rfl, rfl⟩

theorem foldl_total {σ : Type} (statsFn : List RankedPaper → σ)
    (oracle : Paper → Except Unit Ranking) (n : Nat)
    (items : List (String × Paper)) (st : LoopState σ)
    (h1 : st.report.total_papers = n)
    (h2 : ∀ r ∈ st.savedReports, r.total_papers = n) :
    (items.foldl (stepPaper statsFn oracle) st).report.total_papers = n ∧
    ∀ r ∈ (items.foldl (stepPaper statsFn oracle) st).savedReports,
      r.total_papers = n := by
  induction items generalizing st with
  | nil => exact ⟨h1, h2⟩
  | cons it items ih =>
    rw [List.foldl_cons]
    rcases stepPaper_total statsFn oracle st it with ⟨ht, hs⟩
    refine ih _ (ht.trans h1) ?_
    rw [hs]
    intro r hr
    rcases List.mem_append.mp hr with hr | hr
    · exact h2 r hr
    · rcases List.mem_singleton.mp hr with rfl
      exact ht.trans h1

/-! ### Helper lemmas: the `existing_papers` dict -/

theorem upsert_keys (m : List (String × RankedPaper)) (p : RankedPaper) :
    (upsert m p).map (fun e => e.1) =
      if m.any (fun e => e.1 == p.bibtex_key) then m.map (fun e => e.1)
      else m.map (fun e => e.1) ++ [p.bibtex_key] := by
  unfold upsert
  split
  · rw [List.map_map]
    refine List.map_congr_left ?_
    intro e _
    simp only [Function.comp_apply]
    split <;> rfl
  · simp

/-- Every entry of the `existing_papers` dict has its key equal to its
value's `bibtex_key` (the dict is built as `d[p["bibtex_key"]] = p`). -/
def KV (m : List (String × RankedPaper)) : Prop :=
  ∀ e ∈ m, e.2.bibtex_key = e.1

theorem upsert_kv (m : List (String × RankedPaper)) (p : RankedPaper)
    (h : KV m) : KV (upsert m p) := by
  unfold upsert
  split
  · intro e he
    rcases List.mem_map.mp he with ⟨e0, he0, heq⟩
    by_cases hk : e0.1 == p.bibtex_key
    · rw [if_pos hk] at heq
      subst heq
      exact (eq_of_beq hk).symm ▸ rfl
    · rw [if_neg hk] at heq
      subst heq
      exact h e0 he0
  · intro e he
    rcases List.mem_append.mp he with he | he
    · exact h e he
    · rcases List.mem_singleton.mp he with rfl
      rfl

theorem upsert_nodup (m : List (String × RankedPaper)) (p : RankedPaper)
    (h : (m.map (fun e => e.1)).Nodup) :
    ((upsert m p).map (fun e => e.1)).Nodup := by
  rw [upsert_keys]
  split
  · exact h
  · rename_i hany
    rw [Bool.not_eq_true, List.any_eq_false] at hany
    have hnm : p.bibtex_key ∉ m.map (fun e => e.1) := by
      intro hmem
      rcases List.mem_map.mp hmem with ⟨e, he, heq⟩
      exact hany e he (by simp [heq])
    refine List.nodup_append.mpr ⟨h, List.nodup_singleton _, ?_⟩
    intro x hx hxs
    rcases List.mem_singleton.mp hxs with rfl
    exact hnm hx

theorem buildExisting_facts (ps : List RankedPaper) :
    ((buildExisting ps).map (fun e => e.1)).Nodup ∧ KV (buildExisting ps) := by
  unfold buildExisting
  suffices h : ∀ m, (m.map (fun e => e.1)).Nodup → KV m →
      ((ps.foldl upsert m).map (fun e => e.1)).Nodup ∧ KV (ps.foldl upsert m) by
    exact h [] (by simp) (by intro e he; simp at he)
  induction ps with
  | nil => intro m h1 h2; exact ⟨h1, h2⟩
  | cons p ps ih =>
    intro m h1 h2
    rw [List.foldl_cons]
    exact ih (upsert m p) (upsert_nodup m p h1) (upsert_kv m p h2)

theorem foldl_upsert_of_fresh :
    ∀ (ps : List RankedPaper) (m : List (String × RankedPaper)),
      ((m.map (fun e => e.1)) ++ ids ps).Nodup →
      ps.foldl upsert m = m ++ ps.map (fun p => (p.bibtex_key, p)) := by
  intro ps
  induction ps with
  | nil => intro m _; simp
  | cons p ps ih =>
    intro m hm
    have hfresh : p.bibtex_key ∉ m.map (fun e => e.1) := by
      intro h1
      have h2 : p.bibtex_key ∈ ids (p :: ps) := by
        simp [ids, RankedPaper.bibtex_key]
      rw [List.nodup_append] at hm
      exact hm.2.2 h1 h2
    have hp : ¬ m.any (fun e => e.1 == p.bibtex_key) = true := by
      intro hany
      rcases List.any_eq_true.mp hany with ⟨e, he, heq⟩
      exact hfresh ((eq_of_beq heq) ▸ List.mem_map.mpr ⟨e, he, rfl⟩)
    have hup : upsert m p = m ++ [(p.bibtex_key, p)] := by
      unfold upsert
      rw [if_neg hp]
    rw [List.foldl_cons, hup,
      ih (m ++ [(p.bibtex_key, p)]) (by simpa [ids, RankedPaper.bibtex_key] using hm)]
    simp

/-- When the stored records have pairwise-distinct identities the dict is the
identity pairing, in order. -/
theorem buildExisting_of_nodup (ps : List RankedPaper) (h : (ids ps).Nodup) :
    buildExisting ps = ps.map (fun p => (p.bibtex_key, p)) := by
  unfold buildExisting
  simpa using foldl_upsert_of_fresh ps [] (by simpa using h)

/-- Identities of the dict's values are exactly its keys. -/
theorem ids_values (m : List (String × RankedPaper)) (h : KV m) :
    ids (m.map (fun e => e.2)) = m.map (fun e => e.1) := by
  unfold ids
  rw [List.map_map]
  exact List.map_congr_left (fun e he => h e he)

theorem existingMap_facts (c : Option Checkpoint) :
    ((existingMap c).map (fun e => e.1)).Nodup ∧ KV (existingMap c) := by
  cases c with
  | none =>
    exact ⟨by simp [existingMap], fun e he => by simp [existingMap] at he⟩
  | some ck =>
    cases hp : ck.papers with
    | none =>
      exact ⟨by simp [existingMap, hp], fun e he => by simp [existingMap, hp] at he⟩
    | some ps =>
      have h := buildExisting_facts ps
      constructor
      · simpa [existingMap, hp] using h.1
      · intro e he
        simp only [existingMap, hp] at he
        exact h.2 e he

/-! ### Helper lemmas: the rank_papers run -/

theorem mkRanked_bibtex_key (p : Paper) (r : Ranking) :
    (mkRanked p r).bibtex_key = p.bibtex_key := rfl

theorem ids_append (l1 l2 : List RankedPaper) :
    ids (l1 ++ l2) = ids l1 ++ ids l2 := by
  simp [ids]

/-- The per-persistence-point invariant of the claim. -/
def GoodR {σ : Type} (r : Report σ) : Prop :=
  r.successfully_scored = r.papers.length ∧ (ids r.papers).Nodup

theorem loopGood {σ : Type} (statsFn : List RankedPaper → σ)
    (oracle : Paper → Except Unit Ranking) :
    ∀ (items : List (String × Paper)) (st : LoopState σ),
      st.report.papers = st.results →
      st.report.successfully_scored = st.results.length →
      (ids st.results).Nodup →
      (items.map (fun kp => kp.1)).Nodup →
      (∀ kp ∈ items, kp.2.bibtex_key = kp.1) →
      (∀ kp ∈ items, kp.1 ∉ ids st.results) →
      (∀ r ∈ st.savedReports, GoodR r) →
      (∀ r ∈ (items.foldl (stepPaper statsFn oracle) st).savedReports, GoodR r) ∧
      (items.foldl (stepPaper statsFn oracle) st).report.papers =
        (items.foldl (stepPaper statsFn oracle) st).results ∧
      (items.foldl (stepPaper statsFn oracle) st).report.successfully_scored =
        (items.foldl (stepPaper statsFn oracle) st).results.length ∧
      (ids (items.foldl (stepPaper statsFn oracle) st).results).Nodup := by
  intro items
  induction items with
  | nil =>
    intro st h1 h2 h3 _ _ _ h7
    exact ⟨h7, h1, h2, h3⟩
  | cons it items ih =>
    intro st h1 h2 h3 h4 h5 h6 h7
    rw [List.foldl_cons]
    have h4x : (it.1 :: items.map (fun kp => kp.1)).Nodup := by simpa using h4
    have hhead : it.1 ∉ items.map (fun kp => kp.1) := (List.nodup_cons.mp h4x).1
    have htail : (items.map (fun kp => kp.1)).Nodup := (List.nodup_cons.mp h4x).2
    cases ho : oracle it.2 with
    | ok rk =>
      have hstep : stepPaper statsFn oracle st it =
          ⟨st.results ++ [mkRanked it.2 rk], st.failed,
           { st.report with
             successfully_scored := (st.results ++ [mkRanked it.2 rk]).length
             failed := st.failed
             papers := st.results ++ [mkRanked it.2 rk]
             statistics := some (statsFn (st.results ++ [mkRanked it.2 rk])) },
           st.savedReports ++ [{ st.report with
             successfully_scored := (st.results ++ [mkRanked it.2 rk]).length
             failed := st.failed
             papers := st.results ++ [mkRanked it.2 rk]
             statistics := some (statsFn (st.results ++ [mkRanked it.2 rk])) }],
           st.backendCalls + 1⟩ := by
        unfold stepPaper
        rw [ho]
      have hid : ids (st.results ++ [mkRanked it.2 rk]) =
          ids st.results ++ [it.1] := by
        rw [ids_append]
        simp [ids, mkRanked_bibtex_key, h5 it (List.mem_cons_self it items)]
      have hnd : (ids (st.results ++ [mkRanked it.2 rk])).Nodup := by
        rw [hid]
        refine List.nodup_append.mpr ⟨h3, List.nodup_singleton _, ?_⟩
        intro x hx hxs
        rcases List.mem_singleton.mp hxs with rfl
        exact h6 it (List.mem_cons_self it items) hx
      rw [hstep]
      refine ih _ rfl rfl hnd htail
        (fun kp hkp => h5 kp (List.mem_cons_of_mem it hkp)) ?_ ?_
      · intro kp hkp
        rw [hid]
        intro hmem
        rcases List.mem_append.mp hmem with hmem | hmem
        · exact h6 kp (List.mem_cons_of_mem it hkp) hmem
        · rcases List.mem_singleton.mp hmem with heq
          exact hhead (heq ▸ List.mem_map.mpr ⟨kp, hkp, rfl⟩)
      · intro r hr
        rcases List.mem_append.mp hr with hr | hr
        · exact h7 r hr
        · rcases List.mem_singleton.mp hr with rfl
          exact ⟨rfl, hnd⟩
    | error e =>
      have hstep : stepPaper statsFn oracle st it =
          ⟨st.results, st.failed + 1, { st.report with failed := st.failed + 1 },
           st.savedReports ++ [{ st.report with failed := st.failed + 1 }],
           st.backendCalls + 1⟩ := by
        unfold stepPaper
        rw [ho]
      rw [hstep]
      refine ih _ h1 h2 h3 htail
        (fun kp hkp => h5 kp (List.mem_cons_of_mem it hkp))
        (fun kp hkp => h6 kp (List.mem_cons_of_mem it hkp)) ?_
      intro r hr
      rcases List.mem_append.mp hr with hr | hr
      · exact h7 r hr
      · rcases List.mem_singleton.mp hr with rfl
        refine ⟨?_, ?_⟩
        · show st.report.successfully_scored = st.report.papers.length
          rw [h2, h1]
        · show (ids st.report.papers).Nodup
          rw [h1]
          exact h3

theorem applyLimit_subset (items : List (String × Paper)) (limit : Option Nat) :
    (applyLimit items limit).Sublist items := by
  cases limit with
  | none => exact List.Sublist.refl _
  | some l =>
    by_cases h : l ≠ 0
    · simp only [applyLimit, if_pos h]
      exact List.take_sublist l items
    · simp only [applyLimit, if_neg h]
      exact List.Sublist.refl _

theorem remaining_sublist (papers : List (String × Paper))
    (er : Option Checkpoint) (limit : Option Nat) (resume : Bool) :
    (remainingItems papers er limit resume).Sublist papers := by
  unfold remainingItems afterResumeFilter
  exact (applyLimit_subset _ _).trans (List.filter_sublist _)

/-- The state the kick_off loop starts from (results and failure count seeded
from the loaded checkpoint, the report initialized with the full input
size). -/
def initState (papers : List (String × Paper)) (er : Option Checkpoint)
    (resume : Bool) : LoopState StatsK :=
  let results := (existingMap (loadedCheckpoint er resume)).map (fun e => e.2)
  let failed :=
    match loadedCheckpoint er resume with
    | some ck => ck.failed.getD 0
    | none => 0
  ⟨results, failed,
   ⟨papers.length, results.length, failed, results, Status.in_progress, none⟩,
   [], 0⟩

/-- Reduction of `rank_papers` when the remaining-items list is non-empty. -/
theorem rank_papers_cons (oracle : Paper → Except Unit Ranking)
    (papers : List (String × Paper)) (er : Option Checkpoint)
    (limit : Option Nat) (resume : Bool) (it : String × Paper)
    (items : List (String × Paper))
    (hrem : remainingItems papers er limit resume = it :: items) :
    rank_papers oracle papers er limit resume =
      ⟨((it :: items).foldl (stepPaper statsK oracle)
          (initState papers er resume)).results,
       ((it :: items).foldl (stepPaper statsK oracle)
          (initState papers er resume)).savedReports ++
         [{ ((it :: items).foldl (stepPaper statsK oracle)
              (initState papers er resume)).report with
            status := Status.completed }],
       ((it :: items).foldl (stepPaper statsK oracle)
          (initState papers er resume)).backendCalls⟩ := by
  unfold rank_papers
  rw [hrem]
  rfl

/-- Reduction of `rank_papers` when nothing remains: the early return. -/
theorem rank_papers_noop (oracle : Paper → Except Unit Ranking)
    (papers : List (String × Paper)) (er : Option Checkpoint)
    (limit : Option Nat) (resume : Bool)
    (h : remainingItems papers er limit resume = []) :
    rank_papers oracle papers er limit resume =
      ⟨(existingMap (loadedCheckpoint er resume)).map (fun e => e.2), [], 0⟩ := by
  unfold rank_papers
  rw [h]

/-- Every record of the remaining list costs exactly one `rank_paper` call. -/
theorem rank_papers_backendCalls (oracle : Paper → Except Unit Ranking)
    (papers : List (String × Paper)) (er : Option Checkpoint)
    (limit : Option Nat) (resume : Bool) :
    (rank_papers oracle papers er limit resume).backendCalls =
      (remainingItems papers er limit resume).length := by
  cases hrem : remainingItems papers er limit resume with
  | nil =>
    rw [rank_papers_noop oracle papers er limit resume hrem]
    rfl
  | cons it items =>
    rw [rank_papers_cons oracle papers er limit resume it items hrem]
    dsimp only
    rw [foldl_backendCalls]
    simp [initState]

/-- When the backend succeeds on every remaining record, the identities of the
final results are the seeded identities followed by the records' own keys. -/
theorem foldl_allOk {σ : Type} (statsFn : List RankedPaper → σ)
    (oracle : Paper → Except Unit Ranking) :
    ∀ (items : List (String × Paper)) (st : LoopState σ),
      (∀ kp ∈ items, ∃ rk, oracle kp.2 = Except.ok rk) →
      ids (items.foldl (stepPaper statsFn oracle) st).results =
        ids st.results ++ items.map (fun kp => kp.2.bibtex_key) := by
  intro items
  induction items with
  | nil => intro st _; simp
  | cons it items ih =>
    intro st hok
    rw [List.foldl_cons]
    cases ho : oracle it.2 with
    | error e =>
      rcases hok it (List.mem_cons_self it items) with ⟨rk, hrk⟩
      rw [ho] at hrk
      exact Except.noConfusion hrk
    | ok rk =>
      have hstep : (stepPaper statsFn oracle st it).results =
          st.results ++ [mkRanked it.2 rk] := by
        unfold stepPaper
        rw [ho]
      have hres := ih (stepPaper statsFn oracle st it)
        (fun kp hkp => hok kp (List.mem_cons_of_mem it hkp))
      rw [hres, hstep, ids_append]
      simp [ids, mkRanked_bibtex_key]

/-! ### Helper lemma: retry exhaustion -/

theorem rankGo_allFail (loads : List Char → Option Json)
    (attempts : Nat → AttemptOutcome) :
    ∀ (remaining attempt : Nat), 0 < remaining →
      (∀ i, attempt ≤ i → i < attempt + remaining →
        ∃ e, processAttempt loads (attempts i) = Except.error e) →
      rankGo loads attempts attempt remaining =
        ⟨Except.error (), remaining,
         (List.range' attempt (remaining - 1)).map (fun a => 2 ^ a)⟩ := by
  intro remaining
  induction remaining with
  | zero => intro attempt h; exact absurd h (lt_irrefl 0)
  | succ r ihr =>
    intro attempt _ hfail
    rcases hfail attempt le_rfl (by omega) with ⟨e, he⟩
    unfold rankGo
    rw [he]
    dsimp only
    cases r with
    | zero =>
      rw [if_pos rfl]
      simp
    | succ rr =>
      rw [if_neg (Nat.succ_ne_zero rr),
        ihr (attempt + 1) (Nat.succ_pos rr)
          (fun i hle hlt => hfail i (by omega) (by omega))]
      dsimp only
      have h1 : rr + 1 + 1 - 1 = rr + 1 := rfl
      rw [h1, List.range'_succ]
      simp

/-! ### Concrete fixtures for closed evaluations -/

def mkPaper (k : String) : Paper := ⟨k, "t", "a", "", 0, "2024", ""⟩

def rk0 : Ranking := ⟨7, "j", [], [], "r"⟩

def okOracle : Paper → Except Unit Ranking := fun _ => Except.ok rk0

def abOracle : Paper → Except Unit Ranking := fun p =>
  if p.bibtex_key = "a" then Except.ok rk0 else Except.error ()

def twoPapers : List (String × Paper) := [("a", mkPaper "a"), ("b", mkPaper "b")]

def dummyReportK : Report StatsK := ⟨0, 0, 0, [], Status.in_progress, none⟩

def dummyReportL : Report StatsL := ⟨0, 0, 0, [], Status.in_progress, none⟩

/-- A backend response in which the labeled fenced block is not valid JSON but
a brace-bounded JSON document follows it. -/
def t0 : List Char := "x ```json bad``` \x7b\"final_score\": 1\x7d".toList

def mkScored (k : String) (s : Score) (cats : List (String × Score)) :
    RankedPaper :=
  ⟨mkPaper k, s, "", [], cats, ""⟩

def r5 : RankedPaper := mkScored "p5" 5 []

def r8c7 : RankedPaper := mkScored "p8c7" 8 [("direct_lrd_connection", 7)]

def r8c9 : RankedPaper := mkScored "p8c9" 8 [("direct_lrd_connection", 9)]

def exFive : List RankedPaper :=
  [mkScored "a" 1 [], mkScored "b" 3 [], mkScored "c" 5 [],
   mkScored "d" 7 [], mkScored "e" 9 []]

def exFour : List RankedPaper :=
  [mkScored "a" 1 [], mkScored "b" 3 [], mkScored "c" 5 [], mkScored "d" 7 []]

def exOne : List RankedPaper := [mkScored "z" 2 []]

def tornPre : String := "\x7b\"status\": \"completed\"\x7d"

def tornChunk1 : String := "\x7b\"status\""

def tornChunk2 : String := ": \"in_progress\"\x7d"

def tornPost : String := tornChunk1 ++ tornChunk2

/-! ### Claims -/

/-- C2: a record whose backend scoring fails on every attempt costs exactly
`maxRetries` backend invocations with sleeps `2 ^ attempt` (1s, 2s, ...)
between consecutive attempts and ends in a single ranking error; the pipeline
turns that error into exactly one record-level failure (`failed` incremented
by one, `papers` unchanged), continues with the rest of the batch, and still
issues one backend call per remaining record. -/
theorem c2_retry_exhaustion (loads : List Char → Option Json) (maxRetries : Nat)
    (attempts : Nat → AttemptOutcome) (hpos : 0 < maxRetries)
    (hfail : ∀ i, i < maxRetries →
      ∃ e, processAttempt loads (attempts i) = Except.error e) :
    rank_paper loads maxRetries attempts =
      ⟨Except.error (), maxRetries,
       (List.range (maxRetries - 1)).map (fun a => 2 ^ a)⟩
    ∧ (∀ (oracle : Paper → Except Unit Ranking) (st : LoopState StatsK)
        (item : String × Paper), oracle item.2 = Except.error () →
        (stepPaper statsK oracle st item).results = st.results
        ∧ (stepPaper statsK oracle st item).failed = st.failed + 1
        ∧ (stepPaper statsK oracle st item).report.papers = st.report.papers
        ∧ ∀ rest : List (String × Paper),
            (item :: rest).foldl (stepPaper statsK oracle) st =
              rest.foldl (stepPaper statsK oracle) (stepPaper statsK oracle st item))
    ∧ (∀ (oracle : Paper → Except Unit Ranking) (items : List (String × Paper))
        (st : LoopState StatsK),
        (items.foldl (stepPaper statsK oracle) st).backendCalls =
          st.backendCalls + items.length) := by
  refine ⟨?_, ?_, fun oracle items st => foldl_backendCalls statsK oracle items st⟩
  · unfold rank_paper
    rw [rankGo_allFail loads attempts maxRetries 0 hpos
      (fun i _ h2 => hfail i (by omega)), List.range_eq_range']
  · intro oracle st item ho
    have hstep : stepPaper statsK oracle st item =
        ⟨st.results, st.failed + 1, { st.report with failed := st.failed + 1 },
         st.savedReports ++ [{ st.report with failed := st.failed + 1 }],
         st.backendCalls + 1⟩ := by
      unfold stepPaper
      rw [ho]
    exact ⟨by rw [hstep], by rw [hstep], by rw [hstep], fun rest => rfl⟩

/-- Witness for C2 at `maxRetries = 3` with a backend that raises on every
attempt: exactly 3 invocations, sleeps `[1, 2]`, final error. -/
theorem c2_retry_exhaustion_witness :
    ((0 < 3) ∧ ∀ i, i < 3 →
      ∃ e, processAttempt (fun _ => none)
        ((fun _ => AttemptOutcome.apiError) i) = Except.error e)
    ∧ rank_paper (fun _ => none) 3 (fun _ => AttemptOutcome.apiError) =
        ⟨Except.error (), 3, [1, 2]⟩ := by
  have h := c2_retry_exhaustion (fun _ => none) 3 (fun _ => AttemptOutcome.apiError)
    (by decide) (fun i _ => ⟨AttemptErr.apiError, rfl⟩)
  exact ⟨⟨by decide, fun i _ => ⟨AttemptErr.apiError, rfl⟩⟩, by rw [h.1]; rfl⟩

/-- C4 counterexample: on a response whose labeled fenced block is malformed
but which contains a valid brace-bounded JSON document, the chain the claim
describes succeeds via strategy (d), while `_parse_response` stops at the
failed fenced-block parse and raises a decode error - so the strategies are
not attempted as a first-success alternation. -/
theorem c4_counterexample :
    specChainParse jsonLoads t0 =
      Except.ok (Json.jobj [("final_score", Json.jnum 1)])
    ∧ parse_response jsonLoads t0 = Except.error ParseErr.jsonDecodeError
    ∧ specChainParse jsonLoads t0 ≠ parse_response jsonLoads t0 :=
  ⟨rfl, rfl, fun h => Except.noConfusion h⟩

/-- C4 amended: after a failed direct parse, `_parse_response` selects exactly
one fallback by marker inspection (labeled fence if present, else any fence,
else the brace-bounded substring); a parse failure of the selected fallback
propagates without trying later strategies, and the explicit malformed-response
error occurs only when no fence and no brace-bounded substring exist; a parsed
result lacking `final_score` is turned into the missing-score ranking error. -/
theorem c4_amended (loads : List Char → Option Json) (t : List Char) :
    parse_response loads t = amendedParse loads t
    ∧ (∀ j, parse_response loads t = Except.ok j →
        containsFinalScore j = some false →
        processAttempt loads (AttemptOutcome.response t) =
          Except.error AttemptErr.missingScore) := by
  constructor
  · unfold parse_response amendedParse chooseFallback extractLabeledFence
      extractAnyFence extractBraces
    cases loads t with
    | some j => rfl
    | none =>
      dsimp only
      split_ifs <;> rfl
  · intro j hj hfs
    unfold processAttempt
    dsimp only
    rw [hj]
    dsimp only
    rw [hfs]

/-- C9 (evidence for the code bug): the in-place `open(path, "w")` +
`json.dump` write path exposes intermediate file contents - the truncated
empty file and a partial prefix - that equal neither the pre-update nor the
post-update document, unlike the atomic write the claim requires. -/
theorem c9_torn_write :
    writeObservableStates tornPre [tornChunk1, tornChunk2] =
      [tornPre, "", tornChunk1, tornPost]
    ∧ ("" ≠ tornPre ∧ "" ≠ tornPost ∧ tornChunk1 ≠ tornPre ∧ tornChunk1 ≠ tornPost)
    ∧ atomicWriteStates tornPre tornPost = [tornPre, tornPost]
    ∧ "" ∉ atomicWriteStates tornPre tornPost ∧ tornChunk1 ∉ atomicWriteStates tornPre tornPost :=
  ⟨rfl, ⟨by decide, by decide, by decide, by decide⟩, rfl, by decide, by decide⟩

/-- C10: `limit = 0` is falsy, so it is treated as "no limit" in both
pipelines: the run is identical to one with no limit, and every remaining
(resume-filtered) record is attempted. -/
theorem c10_zero_limit (oracle : Paper → Except Unit Ranking)
    (papers : List (String × Paper)) (er : Option Checkpoint) (resume : Bool) :
    rank_papers oracle papers er (some 0) resume =
      rank_papers oracle papers er none resume
    ∧ remainingItems papers er (some 0) resume =
        afterResumeFilter papers (existingMap (loadedCheckpoint er resume)) resume
    ∧ (∀ (oracle2 : Paper → Except Unit Ranking)
        (papers2 : List (String × Paper)),
        rank_papersLegacy oracle2 papers2 (some 0) =
          rank_papersLegacy oracle2 papers2 none)
    ∧ (rank_papers oracle papers er (some 0) resume).backendCalls =
        (afterResumeFilter papers (existingMap (loadedCheckpoint er resume))
          resume).length :=
  ⟨rfl, rfl, fun _ _ => rfl, rank_papers_backendCalls oracle papers er (some 0) resume⟩

/-- C5 amended: every checkpoint the kick_off pipeline persists carries
`total_papers` equal to the size of the full, unfiltered input set; the legacy
paper_ranker pipeline instead persists the size of the limited subset it
attempts. -/
theorem c5_total_papers :
    (∀ (oracle : Paper → Except Unit Ranking) (papers : List (String × Paper))
      (er : Option Checkpoint) (limit : Option Nat) (resume : Bool),
      ∀ r ∈ (rank_papers oracle papers er limit resume).savedReports,
        r.total_papers = papers.length)
    ∧ (∀ (oracle : Paper → Except Unit Ranking) (papers : List (String × Paper))
        (limit : Option Nat),
        ∀ r ∈ (rank_papersLegacy oracle papers limit).savedReports,
          r.total_papers = (applyLimit papers limit).length) := by
  constructor
  · intro oracle papers er limit resume r hr
    cases hrem : remainingItems papers er limit resume with
    | nil =>
      rw [rank_papers_noop oracle papers er limit resume hrem] at hr
      simp at hr
    | cons it items =>
      rw [rank_papers_cons oracle papers er limit resume it items hrem] at hr
      dsimp only at hr
      have hft := foldl_total statsK oracle papers.length (it :: items)
        (initState papers er resume) rfl (fun r hr => by simp [initState] at hr)
      rcases List.mem_append.mp hr with hr | hr
      · exact hft.2 r hr
      · rcases List.mem_singleton.mp hr with rfl
        exact hft.1
  · intro oracle papers limit r hr
    unfold rank_papersLegacy at hr
    dsimp only at hr
    have hft := foldl_total statsL oracle (applyLimit papers limit).length
      (applyLimit papers limit)
      ⟨[], 0, ⟨(applyLimit papers limit).length, 0, 0, [], Status.in_progress,
        none⟩, [], 0⟩
      rfl (fun r hr => by simp at hr)
    rcases List.mem_append.mp hr with hr | hr
    · exact hft.2 r hr
    · rcases List.mem_singleton.mp hr with rfl
      exact hft.1

/-- C5 counterexample: a legacy paper_ranker run over two input records with
`limit = 1` persists `total_papers = 1`, not the full input size 2. -/
theorem c5_counterexample :
    ((rank_papersLegacy okOracle twoPapers (some 1)).savedReports.getLastD
      dummyReportL).total_papers = 1
    ∧ twoPapers.length = 2
    ∧ ((rank_papersLegacy okOracle twoPapers (some 1)).savedReports.getLastD
        dummyReportL).total_papers ≠ twoPapers.length :=
  ⟨rfl, rfl, by decide⟩

/-- C6: with resume enabled, the limit `k` is applied to the records that
survive resume filtering: the attempted list is the filtered list truncated to
`k`, has at most `k` records, contains no already-scored identity, and the run
issues at most `k` backend calls - regardless of the sizes of the input and
the checkpoint. -/
theorem c6_limit_after_filter (oracle : Paper → Except Unit Ranking)
    (papers : List (String × Paper)) (er : Option Checkpoint) (k : Nat)
    (hk : 0 < k) :
    remainingItems papers er (some k) true =
      (afterResumeFilter papers (existingMap (loadedCheckpoint er true)) true).take k
    ∧ (remainingItems papers er (some k) true).length ≤ k
    ∧ (∀ kp ∈ remainingItems papers er (some k) true,
        ∀ e ∈ existingMap (loadedCheckpoint er true), e.1 ≠ kp.1)
    ∧ (rank_papers oracle papers er (some k) true).backendCalls ≤ k := by
  have h1 : remainingItems papers er (some k) true =
      (afterResumeFilter papers (existingMap (loadedCheckpoint er true)) true).take k := by
    unfold remainingItems applyLimit
    dsimp only
    rw [if_pos (Nat.pos_iff_ne_zero.mp hk)]
  refine ⟨h1, ?_, ?_, ?_⟩
  · rw [h1]
    exact List.length_take_le k _
  · intro kp hkp e he heq
    rw [h1] at hkp
    have h2 := List.take_subset k _ hkp
    simp only [afterResumeFilter] at h2
    have h3 := (List.mem_filter.mp h2).2
    have h4 : (existingMap (loadedCheckpoint er true)).any
        (fun e2 => e2.1 == kp.1) = true :=
      List.any_eq_true.mpr ⟨e, he, by simp [heq]⟩
    rw [h4] at h3
    simp at h3
  · rw [rank_papers_backendCalls, h1]
    exact List.length_take_le k _

def ck3 : Checkpoint := ⟨some [mkScored "a" 7 []], some 0⟩

def papers3 : List (String × Paper) :=
  [("a", mkPaper "a"), ("b", mkPaper "b"), ("c", mkPaper "c")]

/-- Witness for C6: three input records, one already scored, `limit = 1`. -/
theorem c6_limit_after_filter_witness :
    (0 < 1)
    ∧ (remainingItems papers3 (some ck3) (some 1) true =
        (afterResumeFilter papers3
          (existingMap (loadedCheckpoint (some ck3) true)) true).take 1
      ∧ (remainingItems papers3 (some ck3) (some 1) true).length ≤ 1
      ∧ (∀ kp ∈ remainingItems papers3 (some ck3) (some 1) true,
          ∀ e ∈ existingMap (loadedCheckpoint (some ck3) true), e.1 ≠ kp.1)
      ∧ (rank_papers okOracle papers3 (some ck3) (some 1) true).backendCalls ≤ 1) :=
  ⟨by decide, c6_limit_after_filter okOracle papers3 (some ck3) 1 (by decide)⟩

/-- C7 amended: the kick_off finalizer is a stable multi-key descending sort
(the output is a permutation of the input, pairwise ordered by the key tuple
of the final score followed by the five rubric category scores) and on the
claim's example orders the 9.0 tie-break record ahead; the legacy finalizer
sorts by the final score alone (pairwise ordered by score only, ties keeping
input order). -/
theorem c7_sort (results : List RankedPaper) :
    ((save_report results).papers).Perm results
    ∧ ((save_report results).papers).Pairwise (fun a b => keyLe a b = true)
    ∧ (save_report [r5, r8c7, r8c9]).papers = [r8c9, r8c7, r5]
    ∧ ((save_reportLegacy results).papers).Perm results
    ∧ ((save_reportLegacy results).papers).Pairwise
        (fun a b => legacyLe a b = true) :=
  ⟨pySorted_perm keyLe results,
   pairwise_pySorted keyLe_total keyLe_trans results, rfl,
   pySorted_perm legacyLe results,
   pairwise_pySorted legacyLe_total legacyLe_trans results⟩

/-- C7 counterexample: with the tied 8.0 records input in the order
(tie-break 7.0, tie-break 9.0), the legacy `save_report` keeps the 7.0
record ahead of the 9.0 record - the tie is never broken by category
scores. -/
theorem c7_counterexample :
    (save_reportLegacy [r5, r8c7, r8c9]).papers = [r8c7, r8c9, r5]
    ∧ r8c7.relevance_score = 8 ∧ r8c9.relevance_score = 8
    ∧ r5.relevance_score = 5
    ∧ get_category_score r8c7 "direct_lrd_connection" = 7
    ∧ get_category_score r8c9 "direct_lrd_connection" = 9 :=
  ⟨rfl, rfl, rfl, rfl, rfl, rfl⟩

/-- C8: at every statistics recomputation over a non-empty list of records,
the median is the element at index `⌊N/2⌋` (zero-based) of the ascending sort
of the final scores - the upper middle value for even `N`; in particular the
median of scores `[1,3,5,7,9]` is 5, and the median of `[1,3,5,7]` is also
5. -/
theorem c8_median (rs : List RankedPaper) (h : rs ≠ []) :
    (∃ hlt : rs.length / 2 < (sortedScores rs).length,
      (statsK rs).median_score = (sortedScores rs).get ⟨rs.length / 2, hlt⟩
      ∧ (statsL rs).median_score = (sortedScores rs).get ⟨rs.length / 2, hlt⟩
      ∧ (finalStatsK rs).median_score = (sortedScores rs).get ⟨rs.length / 2, hlt⟩
      ∧ (finalStatsL rs).median_score = (sortedScores rs).get ⟨rs.length / 2, hlt⟩)
    ∧ (statsK exFive).median_score = 5 ∧ (statsK exFour).median_score = 5
    ∧ (statsL exFive).median_score = 5 ∧ (statsL exFour).median_score = 5
    ∧ (finalStatsK exFive).median_score = 5
    ∧ (finalStatsL exFour).median_score = 5 := by
  have hlen : (sortedScores rs).length = rs.length := by
    unfold sortedScores
    rw [(pySorted_perm ratLe (scoresOf rs)).length_eq]
    simp [scoresOf]
  have hne : 0 < rs.length := List.length_pos.mpr h
  have hlt : rs.length / 2 < (sortedScores rs).length := by
    rw [hlen]
    exact Nat.div_lt_self hne (by omega)
  have hmed : median_score rs = (sortedScores rs).get ⟨rs.length / 2, hlt⟩ := by
    unfold median_score
    rw [List.getD_eq_getElem _ _ hlt]
    exact (List.get_eq_getElem (sortedScores rs) ⟨rs.length / 2, hlt⟩).symm
  have hie : rs.isEmpty = false := by
    simpa [List.isEmpty_iff] using h
  refine ⟨⟨hlt, hmed, hmed, ?_, ?_⟩, rfl, rfl, rfl, rfl, rfl, rfl⟩
  · show (if rs.isEmpty then 0 else median_score rs) =
      (sortedScores rs).get ⟨rs.length / 2, hlt⟩
    rw [hie]
    simpa using hmed
  · show (if rs.isEmpty then 0 else median_score rs) =
      (sortedScores rs).get ⟨rs.length / 2, hlt⟩
    rw [hie]
    simpa using hmed

/-- Witness for C8 on the one-record list with score 2. -/
theorem c8_median_witness :
    (exOne ≠ [])
    ∧ ((∃ hlt : exOne.length / 2 < (sortedScores exOne).length,
        (statsK exOne).median_score = (sortedScores exOne).get ⟨exOne.length / 2, hlt⟩
        ∧ (statsL exOne).median_score = (sortedScores exOne).get ⟨exOne.length / 2, hlt⟩
        ∧ (finalStatsK exOne).median_score =
            (sortedScores exOne).get ⟨exOne.length / 2, hlt⟩
        ∧ (finalStatsL exOne).median_score =
            (sortedScores exOne).get ⟨exOne.length / 2, hlt⟩)
      ∧ (statsK exFive).median_score = 5 ∧ (statsK exFour).median_score = 5
      ∧ (statsL exFive).median_score = 5 ∧ (statsL exFour).median_score = 5
      ∧ (finalStatsK exFive).median_score = 5
      ∧ (finalStatsL exFour).median_score = 5) :=
  ⟨by decide, c8_median exOne (by decide)⟩

/-- C1: at every persistence point of the kick_off pipeline - every
incremental save and the final completed save - the persisted report satisfies
`successfully_scored = len(papers)` and its identities are pairwise distinct
(equivalently, the number of records equals the number of distinct
identities); resume-skip never adds a record whose identity is already
present.  The hypotheses state the RecordSource invariants: the input dict has
unique keys and each value carries its own key as `bibtex_key`. -/
theorem c1_report_invariants (oracle : Paper → Except Unit Ranking)
    (papers : List (String × Paper)) (er : Option Checkpoint)
    (limit : Option Nat) (resume : Bool)
    (hkeys : (papers.map (fun kp => kp.1)).Nodup)
    (hmatch : ∀ kp ∈ papers, kp.2.bibtex_key = kp.1) :
    ∀ r ∈ (rank_papers oracle papers er limit resume).savedReports,
      r.successfully_scored = r.papers.length
      ∧ (ids r.papers).Nodup
      ∧ (ids r.papers).dedup.length = r.papers.length := by
  have hfinish : ∀ r : Report StatsK, GoodR r →
      r.successfully_scored = r.papers.length ∧ (ids r.papers).Nodup
      ∧ (ids r.papers).dedup.length = r.papers.length := by
    intro r hg
    refine ⟨hg.1, hg.2, ?_⟩
    rw [hg.2.dedup]
    simp [ids]
  cases hrem : remainingItems papers er limit resume with
  | nil =>
    rw [rank_papers_noop oracle papers er limit resume hrem]
    intro r hr
    simp at hr
  | cons it items =>
    rw [rank_papers_cons oracle papers er limit resume it items hrem]
    dsimp only
    have hem := existingMap_facts (loadedCheckpoint er resume)
    have hids0 : ids (initState papers er resume).results =
        (existingMap (loadedCheckpoint er resume)).map (fun e => e.1) :=
      ids_values _ hem.2
    have hnd0 : (ids (initState papers er resume).results).Nodup := by
      rw [hids0]
      exact hem.1
    have hsub : (it :: items).Sublist papers :=
      hrem ▸ remaining_sublist papers er limit resume
    have hkeys2 : ((it :: items).map (fun kp => kp.1)).Nodup :=
      (hsub.map _).nodup hkeys
    have hmatch2 : ∀ kp ∈ it :: items, kp.2.bibtex_key = kp.1 :=
      fun kp hkp => hmatch kp (hsub.subset hkp)
    have hfresh : ∀ kp ∈ it :: items,
        kp.1 ∉ ids (initState papers er resume).results := by
      intro kp hkp hmem
      rw [hids0] at hmem
      have hfk : kp ∈ afterResumeFilter papers
          (existingMap (loadedCheckpoint er resume)) resume := by
        have hin : kp ∈ remainingItems papers er limit resume := hrem ▸ hkp
        unfold remainingItems at hin
        exact (applyLimit_subset _ _).subset hin
      simp only [afterResumeFilter] at hfk
      have hcond := (List.mem_filter.mp hfk).2
      rcases List.mem_map.mp hmem with ⟨e, he, heq⟩
      have hany : (existingMap (loadedCheckpoint er resume)).any
          (fun e2 => e2.1 == kp.1) = true :=
        List.any_eq_true.mpr ⟨e, he, by simp [heq]⟩
      cases hres : resume with
      | true =>
        rw [hres] at hcond hany
        rw [hany] at hcond
        simp at hcond
      | false =>
        rw [hres] at he
        simp [loadedCheckpoint, existingMap] at he
    have hloop := loopGood statsK oracle (it :: items) (initState papers er resume)
      rfl rfl hnd0 hkeys2 hmatch2 hfresh (fun r hr => by simp [initState] at hr)
    intro r hr
    rcases List.mem_append.mp hr with hr | hr
    · exact hfinish r (hloop.1 r hr)
    · rcases List.mem_singleton.mp hr with rfl
      refine hfinish _ ⟨?_, ?_⟩
      · exact hloop.2.2.1.trans (congrArg List.length hloop.2.1).symm
      · show (ids ((it :: items).foldl (stepPaper statsK oracle)
          (initState papers er resume)).report.papers).Nodup
        rw [hloop.2.1]
        exact hloop.2.2.2

/-- Witness for C1: a fresh two-record run with a succeeding backend. -/
theorem c1_report_invariants_witness :
    ((twoPapers.map (fun kp => kp.1)).Nodup
     ∧ ∀ kp ∈ twoPapers, kp.2.bibtex_key = kp.1)
    ∧ ∀ r ∈ (rank_papers okOracle twoPapers none none true).savedReports,
        r.successfully_scored = r.papers.length
        ∧ (ids r.papers).Nodup
        ∧ (ids r.papers).dedup.length = r.papers.length :=
  ⟨⟨by decide, by decide⟩,
   c1_report_invariants okOracle twoPapers none none true (by decide) (by decide)⟩

/-- The checkpoint the pipeline leaves on disk after a completed run: `main`
finishes by calling `save_report` on the returned records, overwriting the
incremental report (that final document has no `failed` key). -/
def finalCheckpoint (oracle : Paper → Except Unit Ranking)
    (papers : List (String × Paper)) : Checkpoint :=
  ⟨some (save_report (rank_papers oracle papers none none
    true).returnedResults).papers, none⟩

/-- C3 counterexample to the unconditional resume idempotence: a run over two
records in which one record fails at every attempt still completes
(`status = completed`), but re-running with resume against the checkpoint left
behind issues one backend call (the failed record is not in the checkpoint and
is re-attempted), not zero. -/
theorem c3_counterexample :
    ((rank_papers abOracle twoPapers none none true).savedReports.getLastD
      dummyReportK).status = Status.completed
    ∧ (rank_papers abOracle twoPapers
        (some (finalCheckpoint abOracle twoPapers)) none true).backendCalls = 1
    ∧ (rank_papers abOracle twoPapers
        (some (finalCheckpoint abOracle twoPapers)) none true).backendCalls ≠ 0 :=
  ⟨rfl, rfl, by decide⟩

/-- C3 amended: (i) whenever resume filtering leaves nothing to process,
`rank_papers` performs zero backend calls, persists nothing, and returns the
previously scored records unchanged; (ii) if the first run scored every input
record successfully (no record-level failures), then re-running with resume
against the finalizer's checkpoint performs zero backend calls and returns the
same records up to order.  (Records that failed in the first run are absent
from the checkpoint and are re-attempted on resume - see the
counterexample.) -/
theorem c3_resume_idempotent (oracle : Paper → Except Unit Ranking)
    (papers : List (String × Paper))
    (hkeys : (papers.map (fun kp => kp.1)).Nodup)
    (hmatch : ∀ kp ∈ papers, kp.2.bibtex_key = kp.1)
    (hok : ∀ kp ∈ papers, ∃ rk, oracle kp.2 = Except.ok rk) :
    (∀ (oracle2 : Paper → Except Unit Ranking) (papers2 : List (String × Paper))
      (er2 : Option Checkpoint) (limit2 : Option Nat) (resume2 : Bool),
      remainingItems papers2 er2 limit2 resume2 = [] →
      (rank_papers oracle2 papers2 er2 limit2 resume2).backendCalls = 0
      ∧ (rank_papers oracle2 papers2 er2 limit2 resume2).savedReports = []
      ∧ (rank_papers oracle2 papers2 er2 limit2 resume2).returnedResults =
          (existingMap (loadedCheckpoint er2 resume2)).map (fun e => e.2))
    ∧ ∀ oracle2 : Paper → Except Unit Ranking,
        (rank_papers oracle2 papers (some (finalCheckpoint oracle papers)) none
          true).backendCalls = 0
        ∧ ((rank_papers oracle2 papers (some (finalCheckpoint oracle papers))
            none true).returnedResults).Perm
          (rank_papers oracle papers none none true).returnedResults := by
  have hrem1 : remainingItems papers none none true = papers := by
    unfold remainingItems applyLimit afterResumeFilter loadedCheckpoint existingMap
    simp
  have hids1 : ids (rank_papers oracle papers none none true).returnedResults =
      papers.map (fun kp => kp.1) := by
    cases hrem : remainingItems papers none none true with
    | nil =>
      have hp : papers = [] := hrem1.symm.trans hrem
      rw [rank_papers_noop oracle papers none none true hrem]
      simp [hp, ids, existingMap, loadedCheckpoint]
    | cons it items =>
      have hitems : it :: items = papers := hrem.symm.trans hrem1
      rw [rank_papers_cons oracle papers none none true it items hrem]
      dsimp only
      rw [foldl_allOk statsK oracle (it :: items) _
        (fun kp hkp => hok kp (hitems ▸ hkp))]
      have hi0 : (initState papers none true).results = [] := by
        simp [initState, existingMap, loadedCheckpoint]
      rw [hi0, hitems]
      simp only [ids, List.map_nil, List.nil_append]
      exact List.map_congr_left (fun kp hkp => hmatch kp hkp)
  have hperm : ((save_report (rank_papers oracle papers none none
      true).returnedResults).papers).Perm
      (rank_papers oracle papers none none true).returnedResults :=
    pySorted_perm keyLe _
  have hidsperm : (ids (save_report (rank_papers oracle papers none none
      true).returnedResults).papers).Perm
      (ids (rank_papers oracle papers none none true).returnedResults) :=
    hperm.map RankedPaper.bibtex_key
  have hndsorted : (ids (save_report (rank_papers oracle papers none none
      true).returnedResults).papers).Nodup :=
    hidsperm.nodup_iff.mpr (hids1 ▸ hkeys)
  have hbe : buildExisting (save_report (rank_papers oracle papers none none
      true).returnedResults).papers =
      ((save_report (rank_papers oracle papers none none
        true).returnedResults).papers).map (fun p => (p.bibtex_key, p)) :=
    buildExisting_of_nodup _ hndsorted
  have hem2 : existingMap
      (loadedCheckpoint (some (finalCheckpoint oracle papers)) true) =
      buildExisting (save_report (rank_papers oracle papers none none
        true).returnedResults).papers := by
    simp [existingMap, loadedCheckpoint, finalCheckpoint]
  have hrem2 : remainingItems papers (some (finalCheckpoint oracle papers))
      none true = [] := by
    unfold remainingItems applyLimit
    dsimp only
    unfold afterResumeFilter
    rw [List.filter_eq_nil_iff]
    intro kp hkp
    have hkmem : kp.1 ∈ ids (save_report (rank_papers oracle papers none none
        true).returnedResults).papers := by
      refine hidsperm.mem_iff.mpr ?_
      rw [hids1]
      exact List.mem_map.mpr ⟨kp, hkp, rfl⟩
    rcases List.mem_map.mp hkmem with ⟨p, hp, hpk⟩
    have hany : (existingMap
        (loadedCheckpoint (some (finalCheckpoint oracle papers)) true)).any
        (fun e => e.1 == kp.1) = true := by
      rw [hem2, hbe]
      exact List.any_eq_true.mpr
        ⟨(p.bibtex_key, p), List.mem_map.mpr ⟨p, hp, rfl⟩, by simp [hpk]⟩
    simp [hany]
  refine ⟨?_, ?_⟩
  · intro oracle2 papers2 er2 limit2 resume2 h
    rw [rank_papers_noop oracle2 papers2 er2 limit2 resume2 h]
    exact ⟨rfl, rfl, rfl⟩
  · intro oracle2
    rw [rank_papers_noop oracle2 papers (some (finalCheckpoint oracle papers))
      none true hrem2]
    refine ⟨rfl, ?_⟩
    show ((existingMap (loadedCheckpoint (some (finalCheckpoint oracle papers))
      true)).map (fun e => e.2)).Perm _
    rw [hem2, hbe, List.map_map]
    have hcomp : ((fun e : String × RankedPaper => e.2) ∘
        fun p : RankedPaper => (p.bibtex_key, p)) = id := rfl
    rw [hcomp, List.map_id]
    exact hperm

/-- Witness for C3 amended: a two-record input, a backend that succeeds on
both, a completed first run, and the resumed second run. -/
theorem c3_resume_idempotent_witness :
    ((twoPapers.map (fun kp => kp.1)).Nodup
     ∧ (∀ kp ∈ twoPapers, kp.2.bibtex_key = kp.1)
     ∧ (∀ kp ∈ twoPapers, ∃ rk, okOracle kp.2 = Except.ok rk))
    ∧ ((∀ (oracle2 : Paper → Except Unit Ranking)
        (papers2 : List (String × Paper)) (er2 : Option Checkpoint)
        (limit2 : Option Nat) (resume2 : Bool),
        remainingItems papers2 er2 limit2 resume2 = [] →
        (rank_papers oracle2 papers2 er2 limit2 resume2).backendCalls = 0
        ∧ (rank_papers oracle2 papers2 er2 limit2 resume2).savedReports = []
        ∧ (rank_papers oracle2 papers2 er2 limit2 resume2).returnedResults =
            (existingMap (loadedCheckpoint er2 resume2)).map (fun e => e.2))
      ∧ ∀ oracle2 : Paper → Except Unit Ranking,
          (rank_papers oracle2 twoPapers
            (some (finalCheckpoint okOracle twoPapers)) none
            true).backendCalls = 0
          ∧ ((rank_papers oracle2 twoPapers
              (some (finalCheckpoint okOracle twoPapers)) none
              true).returnedResults).Perm
            (rank_papers okOracle twoPapers none none true).returnedResults) :=
  ⟨⟨by decide, by decide, fun kp _ => ⟨rk0, rfl⟩⟩,
   c3_resume_idempotent okOracle twoPapers (by decide) (by decide)
     (fun kp _ => ⟨rk0, rfl⟩)⟩

end LRD
